import Mathlib

/-
Verification of the flanker address module (flanker/addresslib/address.py)
against its natural-language specification.

Python strings are embedded as lists of characters (`PStr`); a string's
length in "units" is the list length.  External collaborators (the grammar
engine, the preparser, the MX lookup service, the plugin registry) are
either universally quantified oracle parameters or, where a claim depends
on their shape, definitions modelled from the specification (marked
`Modelled from the spec:` in their doc comments).  Elapsed wall-clock
times are abstract natural numbers supplied by oracles.
-/

abbrev PStr := List Char

/-- Configuration constant from the source: maximum single-address length. -/
def MAX_ADDRESS_LENGTH : Nat := 1024

/-- Configuration constant from the source: maximum address count in a list. -/
def MAX_ADDRESS_NUMBER : Nat := 1024

/-- Configuration constant from the source: maximum delimited-list text length. -/
def MAX_ADDRESS_LIST_LENGTH : Nat := MAX_ADDRESS_LENGTH * MAX_ADDRESS_NUMBER

/-- Python `str.lower` on a single character, over the ASCII range
(the address claims are about ASCII case only). -/
def lowerChar (c : Char) : Char :=
  if 65 ≤ c.toNat ∧ c.toNat ≤ 90 then Char.ofNat (c.toNat + 32) else c

/-- Python `str.lower`. -/
def pyLower (s : PStr) : PStr := s.map lowerChar

/-- flanker.utils.is_pure_ascii.  Modelled from the spec: classification of
text as containing only ASCII characters (§4.1, glossary "ACE"); the helper
itself lives outside the covered source. -/
def is_pure_ascii (s : PStr) : Bool := s.all (fun c => c.toNat < 128)

/-- EmailAddress: display name, local part and domain, all Unicode text,
domain stored with original case (source lines 410-490). -/
structure EmailAddress where
  display_name : PStr
  local_part : PStr
  domain : PStr
deriving DecidableEq

/-- UrlAddress: the single stored attribute is the full URL text
(source lines 644-676). -/
structure UrlAddress where
  address : PStr
deriving DecidableEq

/-- The Address variant: every parsed address is an EmailAddress or a
UrlAddress (source class hierarchy, §3 of the spec). -/
inductive Addr where
  | email : EmailAddress → Addr
  | url : UrlAddress → Addr
deriving DecidableEq

/-- EmailAddress.address: the derived canonical `local@domain` with the
domain lower-cased on read (source line 513-515). -/
def EmailAddress.address (e : EmailAddress) : PStr :=
  e.local_part ++ '@' :: pyLower e.domain

/-- The `address` attribute read off either variant: derived for an
EmailAddress, stored verbatim for a UrlAddress. -/
def Addr.address : Addr → PStr
  | .email e => e.address
  | .url u => u.address

/-- EmailAddress.__eq__ against another typed address (source lines
609-617): any Address object is truthy, so the comparison is between the
lower-cased `address` attributes; the variant tag is never inspected. -/
def emailEq (a : EmailAddress) (other : Addr) : Bool :=
  decide (pyLower a.address = pyLower other.address)

/-- Model of Python's string hash: any fixed deterministic function of the
character sequence. -/
def strHash (s : PStr) : Nat :=
  s.foldl (fun h c => (h * 31 + c.toNat) % 18446744073709551616) 0

/-- EmailAddress.__hash__: the hash of the lower-cased derived address
(source lines 626-641). -/
def EmailAddress.hashv (e : EmailAddress) : Nat := strHash (pyLower e.address)

lemma lowerChar_at : lowerChar '@' = '@' := by decide

lemma pyLower_append (s t : PStr) : pyLower (s ++ t) = pyLower s ++ pyLower t :=
  List.map_append lowerChar s t

lemma pyLower_address (e : EmailAddress) :
    pyLower e.address = pyLower e.local_part ++ '@' :: pyLower (pyLower e.domain) := by
  unfold EmailAddress.address
  rw [pyLower_append]
  simp [pyLower, lowerChar_at]

/-- C3: two EmailAddress values compare equal exactly when their derived
canonical addresses agree case-insensitively; equal values hash alike; and
two addresses with the same local part whose domains differ only in case
are equal and share a hash. -/
theorem email_eq_hash_consistent (a b : EmailAddress) :
    (emailEq a (Addr.email b) = true ↔ pyLower a.address = pyLower b.address)
    ∧ (emailEq a (Addr.email b) = true → a.hashv = b.hashv)
    ∧ (a.local_part = b.local_part → pyLower a.domain = pyLower b.domain →
        emailEq a (Addr.email b) = true ∧ a.hashv = b.hashv) := by
  have hiff : emailEq a (Addr.email b) = true ↔ pyLower a.address = pyLower b.address := by
    simp [emailEq, Addr.address]
  refine ⟨hiff, ?_, ?_⟩
  · intro h
    have := hiff.mp h
    simp [EmailAddress.hashv, this]
  · intro hl hd
    have haddr : pyLower a.address = pyLower b.address := by
      rw [pyLower_address, pyLower_address, hl, hd]
    exact ⟨hiff.mpr haddr, by simp [EmailAddress.hashv, haddr]⟩

/-- Witness for C3 at concrete addresses whose domains differ only in case. -/
theorem email_eq_hash_consistent_witness :
    emailEq ⟨[], ("a").toList, ("Host.COM").toList⟩
        (Addr.email ⟨[], ("a").toList, ("host.com").toList⟩) = true
    ∧ EmailAddress.hashv ⟨[], ("a").toList, ("Host.COM").toList⟩
        = EmailAddress.hashv ⟨[], ("a").toList, ("host.com").toList⟩ :=
  (email_eq_hash_consistent ⟨[], ("a").toList, ("Host.COM").toList⟩
    ⟨[], ("a").toList, ("host.com").toList⟩).2.2 rfl (by decide)

/-- C9: EmailAddress.__eq__ never inspects the variant tag — an EmailAddress
compares equal to any UrlAddress whose address text matches its derived
canonical address case-insensitively. -/
theorem email_eq_ignores_variant (e : EmailAddress) (u : UrlAddress) :
    pyLower u.address = pyLower e.address → emailEq e (Addr.url u) = true := by
  intro h
  simp [emailEq, Addr.address, h]

/-- Witness for C9: an email and a url carrying the same address text. -/
theorem email_eq_ignores_variant_witness :
    emailEq ⟨[], ("bob").toList, ("host.com").toList⟩
      (Addr.url ⟨("bob@host.com").toList⟩) = true :=
  email_eq_ignores_variant ⟨[], ("bob").toList, ("host.com").toList⟩
    ⟨("bob@host.com").toList⟩ (by decide)

/-- A Python value as it may be handed to parse_list / validate stages:
None, a string, a list of values, a typed address, or some other object
(stood for by an integer). -/
inductive PyVal where
  | pynone : PyVal
  | str : PStr → PyVal
  | list : List PyVal → PyVal
  | email : EmailAddress → PyVal
  | url : UrlAddress → PyVal
  | int : Int → PyVal

/-- Python truthiness of the values above: None, empty strings, empty lists
and zero are falsy; typed address objects are always truthy. -/
def PyVal.truthy : PyVal → Bool
  | .pynone => false
  | .str s => !s.isEmpty
  | .list l => !l.isEmpty
  | .email _ => true
  | .url _ => true
  | .int n => decide (n ≠ 0)

def PyVal.isStringV : PyVal → Bool
  | .str _ => true
  | _ => false

def PyVal.isListV : PyVal → Bool
  | .list _ => true
  | _ => false

/-- parse (source lines 58-115): empty or over-long input is rejected with
no result; otherwise the external tokenizer/grammar runs, with every
lexical or grammatical failure converted to no result.  The grammar engine
is the oracle `g`. -/
def parse (g : PStr → Option Addr) (address : PStr) : Option Addr :=
  if address.isEmpty then none
  else if address.length > MAX_ADDRESS_LENGTH then none
  else g address

/-- parse_discrete_list (source lines 118-169): same contract as parse but
against the dedicated list grammar `gl` and the larger list-length ceiling. -/
def parse_discrete_list (gl : PStr → Option (List Addr)) (s : PStr) :
    Option (List Addr) :=
  if s.isEmpty then none
  else if s.length > MAX_ADDRESS_LIST_LENGTH then none
  else gl s

/-- The per-item loop of parse_list's sequence branch (source lines
209-224): strings are parsed individually, typed addresses accepted as-is,
anything else rejected into the unparsed bucket. -/
def parse_items (g : PStr → Option Addr) : List PyVal → List Addr × List PyVal
  | [] => ([], [])
  | x :: rest =>
    let (p, u) := parse_items g rest
    match x with
    | .str s =>
      match parse g s with
      | some a => (a :: p, u)
      | none => (p, .str s :: u)
    | .email e => (.email e :: p, u)
    | .url w => (.url w :: p, u)
    | y => (p, y :: u)

/-- parse_list (source lines 171-241): falsy input yields empty partitions;
a list is capped at MAX_ADDRESS_NUMBER items and otherwise partitioned
per item; a string is capped at MAX_ADDRESS_LIST_LENGTH and otherwise
delegated whole to parse_discrete_list, a falsy (none or empty) result
placing the entire string in unparsed; any other value goes to unparsed. -/
def parse_list (g : PStr → Option Addr) (gl : PStr → Option (List Addr))
    (v : PyVal) : List Addr × List PyVal :=
  if !v.truthy then ([], [])
  else match v with
  | .list items =>
    if items.length > MAX_ADDRESS_NUMBER then ([], [.list items])
    else parse_items g items
  | .str s =>
    if s.length > MAX_ADDRESS_LIST_LENGTH then ([], [.str s])
    else
      match parse_discrete_list gl s with
      | some l => if l.isEmpty then ([], [.str s]) else (l, [])
      | none => ([], [.str s])
  | w => ([], [w])

/-- C10: a truthy parse_list input that is neither a string nor a list goes
whole into unparsed with parsed empty; every falsy input yields two empty
partitions. -/
theorem parse_list_nonlist_inputs (g : PStr → Option Addr)
    (gl : PStr → Option (List Addr)) (v : PyVal) :
    (v.truthy = true → v.isStringV = false → v.isListV = false →
        parse_list g gl v = ([], [v]))
    ∧ (v.truthy = false → parse_list g gl v = ([], [])) := by
  constructor
  · intro ht hs hl
    cases v <;> simp_all [parse_list, PyVal.isStringV, PyVal.isListV]
  · intro hf
    simp [parse_list, hf]

/-- Witness for C10: a typed EmailAddress object as the whole input, and the
falsy inputs None, the empty string and the empty list. -/
theorem parse_list_nonlist_inputs_witness :
    parse_list (fun _ => none) (fun _ => none)
        (PyVal.email ⟨[], ("a").toList, ("b").toList⟩)
      = ([], [PyVal.email ⟨[], ("a").toList, ("b").toList⟩])
    ∧ parse_list (fun _ => none) (fun _ => none) PyVal.pynone = ([], [])
    ∧ parse_list (fun _ => none) (fun _ => none) (PyVal.str []) = ([], [])
    ∧ parse_list (fun _ => none) (fun _ => none) (PyVal.list []) = ([], []) :=
  ⟨(parse_list_nonlist_inputs (fun _ => none) (fun _ => none)
      (PyVal.email ⟨[], ("a").toList, ("b").toList⟩)).1 rfl rfl rfl,
   (parse_list_nonlist_inputs (fun _ => none) (fun _ => none) PyVal.pynone).2 rfl,
   (parse_list_nonlist_inputs (fun _ => none) (fun _ => none) (PyVal.str [])).2 rfl,
   (parse_list_nonlist_inputs (fun _ => none) (fun _ => none) (PyVal.list [])).2 rfl⟩

/-- C4: parse returns no result for empty input and for input longer than
1024 units; parse_discrete_list enforces the 1,048,576-unit ceiling with no
result; parse_list's string branch places an over-ceiling string whole into
unparsed. -/
theorem parse_length_ceilings (g : PStr → Option Addr)
    (gl : PStr → Option (List Addr)) (s t : PStr) :
    parse g [] = none
    ∧ (s.length > MAX_ADDRESS_LENGTH → parse g s = none)
    ∧ (t.length > MAX_ADDRESS_LIST_LENGTH →
        parse_discrete_list gl t = none
        ∧ parse_list g gl (.str t) = ([], [.str t])) := by
  refine ⟨by simp [parse], ?_, ?_⟩
  · intro h
    have hne : s.isEmpty = false := by
      cases s
      · simp [MAX_ADDRESS_LENGTH] at h
      · simp
    simp [parse, hne, h]
  · intro h
    have hne : t.isEmpty = false := by
      cases t
      · simp [MAX_ADDRESS_LIST_LENGTH, MAX_ADDRESS_LENGTH, MAX_ADDRESS_NUMBER] at h
      · simp
    refine ⟨by simp [parse_discrete_list, hne, h], ?_⟩
    simp [parse_list, PyVal.truthy, hne, h]

/-- Witness for C4 at a 1025-unit address and a 1,048,577-unit list string. -/
theorem parse_length_ceilings_witness :
    parse (fun _ => none) (List.replicate 1025 'a') = none
    ∧ parse_discrete_list (fun _ => none) (List.replicate 1048577 'a') = none
    ∧ parse_list (fun _ => none) (fun _ => none)
        (.str (List.replicate 1048577 'a'))
      = ([], [.str (List.replicate 1048577 'a')]) := by
  have h1 : (List.replicate 1025 'a').length > MAX_ADDRESS_LENGTH := by
    rw [List.length_replicate]; decide
  have h2 : (List.replicate 1048577 'a').length > MAX_ADDRESS_LIST_LENGTH := by
    rw [List.length_replicate]; decide
  have hmain := parse_length_ceilings (fun _ => none) (fun _ => none)
    (List.replicate 1025 'a') (List.replicate 1048577 'a')
  exact ⟨hmain.2.1 h1, (hmain.2.2 h2).1, (hmain.2.2 h2).2⟩

lemma parse_items_length (g : PStr → Option Addr) :
    ∀ items : List PyVal,
      (parse_items g items).1.length + (parse_items g items).2.length
        = items.length := by
  intro items
  induction items with
  | nil => simp [parse_items]
  | cons x rest ih =>
    cases x with
    | str s =>
      cases h : parse g s with
      | none => simp [parse_items, h]; omega
      | some a => simp [parse_items, h]; omega
    | pynone => simp [parse_items]; omega
    | list l => simp [parse_items]; omega
    | email e => simp [parse_items]; omega
    | url u => simp [parse_items]; omega
    | int n => simp [parse_items]; omega

/-- C2 (amended): for a sequence of at most 1024 items every item lands in
exactly one partition, so the partition sizes sum to the item count; a
sequence exceeding the cap is not partitioned per item — parsed is empty
and unparsed holds the entire sequence as its single element. -/
theorem parse_list_partition_counts (g : PStr → Option Addr)
    (gl : PStr → Option (List Addr)) (items : List PyVal) :
    (items.length ≤ MAX_ADDRESS_NUMBER →
      (parse_list g gl (.list items)).1.length
        + (parse_list g gl (.list items)).2.length = items.length)
    ∧ (items.length > MAX_ADDRESS_NUMBER →
      parse_list g gl (.list items) = ([], [.list items])) := by
  constructor
  · intro hle
    by_cases hemp : items = []
    · subst hemp
      simp [parse_list, PyVal.truthy]
    · have ht : (PyVal.list items).truthy = true := by
        simp [PyVal.truthy, hemp]
      have hnc : ¬ items.length > MAX_ADDRESS_NUMBER := by omega
      simp [parse_list, ht, hnc, parse_items_length]
  · intro hgt
    have hemp : items ≠ [] := by
      intro hc
      subst hc
      simp [MAX_ADDRESS_NUMBER] at hgt
    have ht : (PyVal.list items).truthy = true := by
      simp [PyVal.truthy, hemp]
    simp [parse_list, ht, hgt]

/-- Counterexample to C2 as stated: a 1025-item sequence yields partitions
whose sizes sum to 1, not 1025 — the whole list lands in unparsed as one
element. -/
theorem parse_list_partition_overflow_counterexample :
    (parse_list (fun _ => none) (fun _ => none)
        (.list (List.replicate 1025 (PyVal.int 1)))).1.length
      + (parse_list (fun _ => none) (fun _ => none)
        (.list (List.replicate 1025 (PyVal.int 1)))).2.length = 1
    ∧ (List.replicate 1025 (PyVal.int 1)).length = 1025
    ∧ (1 : Nat) ≠ 1025 := by
  refine ⟨?_, by rw [List.length_replicate], by decide⟩
  have := (parse_list_partition_counts (fun _ => none) (fun _ => none)
    (List.replicate 1025 (PyVal.int 1))).2
    (by rw [List.length_replicate]; decide)
  rw [this]
  rfl

/-- Witness for C2's amended theorem on a mixed two-item sequence. -/
theorem parse_list_partition_counts_witness :
    (parse_list (fun _ => none) (fun _ => none)
        (.list [PyVal.str ("a").toList, PyVal.int 7])).1.length
      + (parse_list (fun _ => none) (fun _ => none)
        (.list [PyVal.str ("a").toList, PyVal.int 7])).2.length = 2 :=
  (parse_list_partition_counts (fun _ => none) (fun _ => none)
    [PyVal.str ("a").toList, PyVal.int 7]).1 (by simp [MAX_ADDRESS_NUMBER])

/-- C5 (amended): for a string input, parsing failure — and equally a
grammar result that is an empty sequence, which the source's truthiness
test conflates with failure — places the original string verbatim as the
single unparsed element with parsed empty; a nonempty grammar result is
returned whole as parsed with unparsed empty; an empty string yields two
empty partitions and an over-ceiling string goes verbatim to unparsed. -/
theorem parse_list_string_branch (g : PStr → Option Addr)
    (gl : PStr → Option (List Addr)) (s : PStr) :
    (s = [] → parse_list g gl (.str s) = ([], []))
    ∧ (s.length > MAX_ADDRESS_LIST_LENGTH →
        parse_list g gl (.str s) = ([], [.str s]))
    ∧ (s ≠ [] → s.length ≤ MAX_ADDRESS_LIST_LENGTH →
        ((parse_discrete_list gl s = none →
            parse_list g gl (.str s) = ([], [.str s]))
         ∧ (parse_discrete_list gl s = some [] →
            parse_list g gl (.str s) = ([], [.str s]))
         ∧ (∀ l, parse_discrete_list gl s = some l → l ≠ [] →
            parse_list g gl (.str s) = (l, [])))) := by
  refine ⟨?_, ?_, ?_⟩
  · intro h
    subst h
    simp [parse_list, PyVal.truthy]
  · intro h
    have hne : s ≠ [] := by
      intro hc
      subst hc
      simp [MAX_ADDRESS_LIST_LENGTH, MAX_ADDRESS_LENGTH, MAX_ADDRESS_NUMBER] at h
    have ht : (PyVal.str s).truthy = true := by
      simp [PyVal.truthy, hne]
    simp [parse_list, ht, h]
  · intro hne hle
    have ht : (PyVal.str s).truthy = true := by
      simp [PyVal.truthy, hne]
    have hnc : ¬ s.length > MAX_ADDRESS_LIST_LENGTH := by omega
    refine ⟨?_, ?_, ?_⟩
    · intro h
      simp [parse_list, ht, hnc, h]
    · intro h
      simp [parse_list, ht, hnc, h]
    · intro l h hl
      simp [parse_list, ht, hnc, h, hl]

/-- Counterexample to C5 as stated: a grammar parse that succeeds with an
empty element sequence nevertheless leaves unparsed nonempty — the whole
input string is placed there, because the source tests the truthiness of
the returned collection rather than its presence. -/
theorem parse_list_empty_grammar_counterexample :
    parse_discrete_list (fun _ => some []) (("x").toList) = some []
    ∧ parse_list (fun _ => none) (fun _ => some []) (.str (("x").toList))
      = ([], [.str (("x").toList)]) :=
  ⟨rfl, rfl⟩

/-- Witness for C5's amended theorem: grammar failure puts the string in
unparsed, and a nonempty grammar success fills parsed exactly. -/
theorem parse_list_string_branch_witness :
    parse_list (fun _ => none) (fun _ => none) (.str (("C").toList))
      = ([], [.str (("C").toList)])
    ∧ parse_list (fun _ => none)
        (fun _ => some [Addr.email ⟨[], ("a").toList, ("b").toList⟩])
        (.str (("a@b").toList))
      = ([Addr.email ⟨[], ("a").toList, ("b").toList⟩], []) :=
  ⟨((parse_list_string_branch (fun _ => none) (fun _ => none)
      (("C").toList)).2.2 (by decide) (by decide)).1 rfl,
   ((parse_list_string_branch (fun _ => none)
      (fun _ => some [Addr.email ⟨[], ("a").toList, ("b").toList⟩])
      (("a@b").toList)).2.2 (by decide) (by decide)).2.2
    [Addr.email ⟨[], ("a").toList, ("b").toList⟩] rfl (by simp)⟩

/-- Modelled from the spec: the IDNA/ACE encoding of a domain (§4.1,
glossary "ACE") — an all-ASCII representation of an internationalized
domain; all-ASCII input passes through unchanged, non-ASCII input becomes
an "xn--" form whose punycode digits are abstracted as the domain's ASCII
alphanumerics and dots. -/
def idnaEncode (d : PStr) : PStr :=
  if is_pure_ascii d then d
  else 'x' :: 'n' :: '-' :: '-' :: d.filter (fun c => c.isAlphanum || decide (c = '.'))

/-- Modelled from the spec: the MIME encoded-word collaborator (§6) — ASCII
display text passes through, non-ASCII display text is replaced by an
all-ASCII encoded word (the base64 payload abstracted as the text's ASCII
alphanumerics). -/
def encode_string (s : PStr) : PStr :=
  if is_pure_ascii s then s
  else ("=?utf-8?b?").toList ++ s.filter (fun c => c.isAlphanum) ++ ("?=").toList

/-- Modelled from the spec: the quoting collaborator (§4.1, §6) — a display
name containing syntax-significant characters is wrapped in double quotes. -/
def smart_quote (s : PStr) : PStr :=
  if s.any (fun c => [',', ';', '<', '>', '@', ':', '.', '(', ')', '"', '[', ']'].contains c)
  then '"' :: s ++ ['"'] else s

/-- EmailAddress.requires_non_ascii (source lines 594-598): true iff the
local part is not pure ASCII. -/
def EmailAddress.requires_non_ascii (e : EmailAddress) : Bool :=
  !is_pure_ascii e.local_part

/-- EmailAddress.to_unicode (source lines 580-586): the literal Unicode
form, domain in original case. -/
def EmailAddress.to_unicode (e : EmailAddress) : PStr :=
  if e.display_name.isEmpty then e.local_part ++ '@' :: e.domain
  else e.display_name ++ ' ' :: '<' :: e.local_part ++ '@' :: e.domain ++ ['>']

/-- EmailAddress.to_ace (source lines 564-578): fails (raises, modelled as
none) when the local part is not pure ASCII; otherwise the domain is
lower-cased and IDNA-encoded and a non-empty display name is MIME-encoded
and quoted. -/
def EmailAddress.to_ace (e : EmailAddress) : Option PStr :=
  if !is_pure_ascii e.local_part then none
  else
    let ace_domain := idnaEncode (pyLower e.domain)
    if e.display_name.isEmpty then some (e.local_part ++ '@' :: ace_domain)
    else some (smart_quote (encode_string e.display_name)
      ++ ' ' :: '<' :: e.local_part ++ '@' :: ace_domain ++ ['>'])

/-- EmailAddress.full_spec (source lines 548-562): the Unicode form when
the local part requires non-ASCII, else the ACE form. -/
def EmailAddress.full_spec (e : EmailAddress) : Option PStr :=
  if e.requires_non_ascii then some e.to_unicode else e.to_ace

/-- C7: to_ace signals its encoding failure exactly when the local part is
non-ASCII (requires_non_ascii), and full_spec never signals it — it takes
the Unicode form when requires_non_ascii holds and the (then total) ACE
form otherwise. -/
theorem to_ace_failure_iff_nonascii (e : EmailAddress) :
    (e.to_ace = none ↔ e.requires_non_ascii = true)
    ∧ (e.requires_non_ascii = true → e.full_spec = some e.to_unicode)
    ∧ (e.requires_non_ascii = false →
        e.full_spec = e.to_ace ∧ e.full_spec ≠ none) := by
  by_cases h : is_pure_ascii e.local_part
  · by_cases hd : e.display_name.isEmpty <;>
      simp [EmailAddress.to_ace, EmailAddress.requires_non_ascii,
        EmailAddress.full_spec, h, hd]
  · simp [EmailAddress.to_ace, EmailAddress.requires_non_ascii,
      EmailAddress.full_spec, h]

/-- Witness for C7: a non-ASCII local part falls back to the Unicode form,
an ASCII one renders through to_ace with no failure. -/
theorem to_ace_failure_iff_nonascii_witness :
    EmailAddress.full_spec ⟨[], ("ü").toList, ("d.com").toList⟩
      = some (EmailAddress.to_unicode ⟨[], ("ü").toList, ("d.com").toList⟩)
    ∧ EmailAddress.full_spec ⟨[], ("bob").toList, ("d.com").toList⟩ ≠ none :=
  ⟨(to_ace_failure_iff_nonascii ⟨[], ("ü").toList, ("d.com").toList⟩).2.1
      (by decide),
   ((to_ace_failure_iff_nonascii ⟨[], ("bob").toList, ("d.com").toList⟩).2.2
      (by decide)).2⟩

/-- Sub-metrics reported by the external MX lookup collaborator. -/
structure MxMetrics where
  mx_lookup : Nat
  dns_lookup : Nat
  mx_conn : Nat
deriving DecidableEq

/-- The metrics record of the validation pipeline (keys parsing, mx_lookup,
dns_lookup, mx_conn, custom_grammar). -/
structure VMetrics where
  parsing : Nat
  mx_lookup : Nat
  dns_lookup : Nat
  mx_conn : Nat
  custom_grammar : Nat
deriving DecidableEq

def zeroVM : VMetrics := ⟨0, 0, 0, 0, 0⟩

/-- The external collaborators of the validation pipeline (§6) together
with wall-clock oracles for the elapsed-time measurements. -/
structure ValidateEnv where
  addr_grammar : PStr → Option Addr
  mb_grammar : PStr → Option Addr
  list_grammar : PStr → Option (List Addr)
  preparse : PyVal → Option (PStr × PStr)
  mx : PStr → Option PStr × MxMetrics
  plugin : PStr → Option (PStr → Bool)
  parse_time : PStr → Nat
  custom_time : PStr → Nat

/-- validate_address (source lines 244-299): preparse, grammar parse of the
rejoined local@domain, MX lookup on the domain, then the optional plugin on
the preparsed local part; each stage's failure ends the pipeline with no
result and the per-stage times are recorded in the metrics record. -/
def validate_address (env : ValidateEnv) (addr_spec : PyVal) :
    Option Addr × VMetrics :=
  match addr_spec with
  | .pynone => (none, zeroVM)
  | v =>
    match env.preparse v with
    | none => (none, zeroVM)
    | some (lp, dom) =>
      let joined := lp ++ '@' :: dom
      let m1 : VMetrics := { zeroVM with parsing := env.parse_time joined }
      match parse env.addr_grammar joined with
      | none => (none, m1)
      | some a =>
        let mxr := env.mx dom
        let m2 : VMetrics := { m1 with
          mx_lookup := mxr.2.mx_lookup
          dns_lookup := mxr.2.dns_lookup
          mx_conn := mxr.2.mx_conn }
        match mxr.1 with
        | none => (none, m2)
        | some x =>
          let m3 : VMetrics := { m2 with custom_grammar := env.custom_time x }
          match env.plugin x with
          | some p => if p lp = false then (none, m3) else (some a, m3)
          | none => (some a, m3)

/-- C1: validate_address returns no result when the preparse stage, the
grammar parse of the rejoined local@domain, or the mail-exchanger lookup
fails, or a registered plugin explicitly rejects the preparsed local part;
when every stage passes (a missing plugin included) it returns exactly the
address produced by the grammar-parse stage. -/
theorem validate_address_stage_contract (env : ValidateEnv) (s : PStr) :
    (env.preparse (.str s) = none → (validate_address env (.str s)).1 = none)
    ∧ (∀ lp dom, env.preparse (.str s) = some (lp, dom) →
        ((parse env.addr_grammar (lp ++ '@' :: dom) = none →
            (validate_address env (.str s)).1 = none)
         ∧ (∀ a, parse env.addr_grammar (lp ++ '@' :: dom) = some a →
            (((env.mx dom).1 = none →
                (validate_address env (.str s)).1 = none)
             ∧ (∀ x, (env.mx dom).1 = some x →
                ((∀ p, env.plugin x = some p → p lp = false →
                    (validate_address env (.str s)).1 = none)
                 ∧ (env.plugin x = none →
                    (validate_address env (.str s)).1 = some a)
                 ∧ (∀ p, env.plugin x = some p → p lp = true →
                    (validate_address env (.str s)).1 = some a))))))) := by
  constructor
  · intro hpre
    simp [validate_address, hpre]
  · intro lp dom hpre
    constructor
    · intro hparse
      simp [validate_address, hpre, hparse]
    · intro a hparse
      constructor
      · intro hmx
        simp [validate_address, hpre, hparse, hmx]
      · intro x hmx
        refine ⟨?_, ?_, ?_⟩
        · intro p hpl hrej
          simp [validate_address, hpre, hparse, hmx, hpl, hrej]
        · intro hpl
          simp [validate_address, hpre, hparse, hmx, hpl]
        · intro p hpl hacc
          simp [validate_address, hpre, hparse, hmx, hpl, hacc]

/-- A concrete collaborator environment in which every validation stage
passes for the address u@g.com. -/
def envAllPass : ValidateEnv where
  addr_grammar := fun t =>
    if t = ("u@g.com").toList
    then some (Addr.email ⟨[], ("u").toList, ("g.com").toList⟩) else none
  mb_grammar := fun _ => none
  list_grammar := fun _ => none
  preparse := fun v =>
    match v with
    | .str t =>
      if t = ("u@g.com").toList
      then some (("u").toList, ("g.com").toList) else none
    | _ => none
  mx := fun d =>
    if d = ("g.com").toList
    then (some (("mx.g.com").toList), ⟨2, 3, 4⟩) else (none, ⟨0, 0, 0⟩)
  plugin := fun _ => some (fun lp => !lp.isEmpty)
  parse_time := fun _ => 5
  custom_time := fun _ => 6

/-- Witness for C1: with every stage passing, validate_address returns the
grammar-parse stage's address. -/
theorem validate_address_stage_contract_witness :
    (validate_address envAllPass (.str (("u@g.com").toList))).1
      = some (Addr.email ⟨[], ("u").toList, ("g.com").toList⟩) :=
  ((((validate_address_stage_contract envAllPass (("u@g.com").toList)).2
      (("u").toList) (("g.com").toList) rfl).2
      (Addr.email ⟨[], ("u").toList, ("g.com").toList⟩) rfl).2
      (("mx.g.com").toList) rfl).2.2 (fun lp => !lp.isEmpty) rfl rfl

/-- Accumulate MX-lookup sub-metrics into a validation metrics record
(source lines 342-344). -/
def addVMmx (m : VMetrics) (x : MxMetrics) : VMetrics := { m with
  mx_lookup := m.mx_lookup + x.mx_lookup
  dns_lookup := m.dns_lookup + x.dns_lookup
  mx_conn := m.mx_conn + x.mx_conn }

/-- The doubling that source lines 370-371 actually perform: each key of
the per-call metrics dict is added to itself. -/
def doubleVM (m : VMetrics) : VMetrics :=
  ⟨m.parsing + m.parsing, m.mx_lookup + m.mx_lookup,
   m.dns_lookup + m.dns_lookup, m.mx_conn + m.mx_conn,
   m.custom_grammar + m.custom_grammar⟩

/-- Batch pass of validate_list (source lines 337-358): each parsed address
goes through MX lookup and plugin check; failures move its full_spec text
to the rejected list.  MX sub-metrics accumulate while the custom-grammar
time is overwritten on each plugin success.  A UrlAddress makes the source
raise AttributeError (it has no `domain`), modelled as none. -/
def validate_pass1 (env : ValidateEnv) :
    List Addr → VMetrics → Option (List Addr × List PyVal × VMetrics)
  | [], m => some ([], [], m)
  | .url _ :: _, _ => none
  | .email e :: rest, m =>
    let m1 := addVMmx m (env.mx e.domain).2
    match (env.mx e.domain).1 with
    | none =>
      match validate_pass1 env rest m1 with
      | none => none
      | some (pl, ul, mf) => some (pl, .str ((e.full_spec).getD []) :: ul, mf)
    | some x =>
      match env.plugin x with
      | some p =>
        if p e.local_part = false then
          match validate_pass1 env rest m1 with
          | none => none
          | some (pl, ul, mf) =>
            some (pl, .str ((e.full_spec).getD []) :: ul, mf)
        else
          match validate_pass1 env rest
              { m1 with custom_grammar := env.custom_time x } with
          | none => none
          | some (pl, ul, mf) => some (Addr.email e :: pl, ul, mf)
      | none =>
        match validate_pass1 env rest
            { m1 with custom_grammar := env.custom_time x } with
        | none => none
        | some (pl, ul, mf) => some (Addr.email e :: pl, ul, mf)

/-- Repair pass of validate_list (source lines 362-371): every originally
unparsable item is retried through validate_address.  The source then runs
`metrics[k] += v` over the call's own metrics dict — doubling it in place
and discarding it — so the caller-visible metrics record is never updated
by this pass; `doubleVM` mirrors that discarded computation. -/
def validate_pass2 (env : ValidateEnv) : List PyVal → List Addr × List PyVal
  | [] => ([], [])
  | u :: rest =>
    let r := validate_address env u
    let discarded := doubleVM r.2
    let (pl, ul) := validate_pass2 env rest
    match discarded with
    | _ =>
      match r.1 with
      | some a => (a :: pl, ul)
      | none => (pl, u :: ul)

/-- validate_list (source lines 302-375): tolerant parse partition, then
the batch pass over parsed addresses and the repair pass over unparsable
items; pl_time is the wall clock of the parse_list call. -/
def validate_list (env : ValidateEnv) (pl_time : Nat) (v : PyVal) :
    Option (List Addr × List PyVal × VMetrics) :=
  if !v.truthy then some ([], [], zeroVM)
  else
    let pu := parse_list env.mb_grammar env.list_grammar v
    match validate_pass1 env pu.1 { zeroVM with parsing := pl_time } with
    | none => none
    | some (pl, ul, m1) =>
      let r2 := validate_pass2 env pu.2
      some (pl ++ r2.1, ul ++ r2.2, m1)

/-- A concrete collaborator environment in which the single list item fails
the list grammar but is recovered by the repair pass, whose validate_address
call reports nonzero times for every stage. -/
def envRepair : ValidateEnv where
  addr_grammar := fun t =>
    if t = ("xy@d.com").toList
    then some (Addr.email ⟨[], ("xy").toList, ("d.com").toList⟩) else none
  mb_grammar := fun _ => none
  list_grammar := fun _ => none
  preparse := fun v =>
    match v with
    | .str t =>
      if t = ("x y").toList
      then some (("xy").toList, ("d.com").toList) else none
    | _ => none
  mx := fun d =>
    if d = ("d.com").toList
    then (some (("mx.d.com").toList), ⟨2, 3, 4⟩) else (none, ⟨0, 0, 0⟩)
  plugin := fun _ => none
  parse_time := fun _ => 5
  custom_time := fun _ => 6

/-- C8: the metrics record validate_list returns does NOT aggregate the
repair pass — the recovered item's validate_address call reports metrics
(5, 2, 3, 4, 6), yet the returned record still holds only the batch-pass
values (1, 0, 0, 0, 0), because source lines 370-371 add each per-call
metric into the per-call dict itself and discard it. -/
theorem validate_list_repair_metrics_dropped :
    validate_list envRepair 1 (.list [.str (("x y").toList)])
      = some ([Addr.email ⟨[], ("xy").toList, ("d.com").toList⟩], [],
          ⟨1, 0, 0, 0, 0⟩)
    ∧ (validate_address envRepair (.str (("x y").toList))).2
      = ⟨5, 2, 3, 4, 6⟩ :=
  ⟨rfl, rfl⟩

/-- ASCII digit, upper-case or lower-case letter. -/
def alnumC (c : Char) : Bool :=
  (decide (48 ≤ c.toNat) && decide (c.toNat ≤ 57))
  || (decide (65 ≤ c.toNat) && decide (c.toNat ≤ 90))
  || (decide (97 ≤ c.toNat) && decide (c.toNat ≤ 122))

/-- The RFC 5322 atom symbols retained by the grammar model. -/
def symbolC (c : Char) : Bool :=
  decide (c = '!') || decide (c = '#') || decide (c = '$') || decide (c = '%')
  || decide (c = '&') || decide (c = '*') || decide (c = '+') || decide (c = '-')
  || decide (c = '/') || decide (c = '=') || decide (c = '?') || decide (c = '^')
  || decide (c = '_') || decide (c = '~')

/-- Atom text of the grammar model: alphanumerics, atom symbols, and any
non-ASCII character (the spec's internationalized addresses, §1). -/
def atext (c : Char) : Bool := alnumC c || decide (128 ≤ c.toNat) || symbolC c

def atextDot (c : Char) : Bool := atext c || decide (c = '.')

/-- Characters admitted inside a bracketed domain literal. -/
def innerOk (c : Char) : Bool := alnumC c || decide (c = '.') || decide (c = '-')

/-- A valid local part in the grammar model: nonempty dot-atom text. -/
def localOk (l : PStr) : Bool := !l.isEmpty && l.all atextDot

/-- A bracketed domain literal. -/
def literalOk (d : PStr) : Bool :=
  match d with
  | c :: rest => decide (c = '[') && !rest.isEmpty
      && decide (rest.getLast? = some ']') && rest.dropLast.all innerOk
  | [] => false

/-- A valid domain in the grammar model: nonempty dot-atom text or a
bracketed domain literal. -/
def domOk (d : PStr) : Bool := (!d.isEmpty && d.all atextDot) || literalOk d

/-- Split a list at the last occurrence of `sep`. -/
def splitLast (sep : Char) : PStr → Option (PStr × PStr)
  | [] => none
  | c :: cs =>
    match splitLast sep cs with
    | some (l, r) => some (c :: l, r)
    | none => if c = sep then some ([], cs) else none

/-- Drop trailing spaces of a raw display-name segment. -/
def trimTrailing (l : PStr) : PStr :=
  (l.reverse.dropWhile (fun c => decide (c = ' '))).reverse

/-- Modelled from the spec: the Quoting.unquote collaborator (§4.1, §6) —
a quoted display name is unquoted before storage; a name of exactly two
quote characters is left untouched. -/
def smart_unquote (s : PStr) : PStr :=
  if decide (3 ≤ s.length) && decide (s.head? = some '"')
      && decide (s.getLast? = some '"')
  then (s.drop 1).dropLast else s

/-- Modelled from the spec: addr-spec recognition by the external grammar
engine (§6; RFC 5322 style per §1): the text splits at the last at-sign
into a valid local part and a valid domain. -/
def parseAddrSpecG (s : PStr) : Option EmailAddress :=
  match splitLast '@' s with
  | some (l, d) => if localOk l && domOk d then some ⟨[], l, d⟩ else none
  | none => none

/-- Modelled from the spec: the angle-bracketed mailbox form of the grammar
engine — display name before the last opening angle bracket, then an
addr-spec closed by the final closing bracket; the display name is trimmed
and unquoted on lifting (§4.1). -/
def mailboxG (s : PStr) : Option EmailAddress :=
  match splitLast '<' s with
  | some (dnRaw, rest) =>
    match splitLast '@' rest.dropLast with
    | some (l, d) =>
      if localOk l && domOk d
      then some ⟨smart_unquote (trimTrailing dnRaw), l, d⟩ else none
    | none => none
  | none => none

def startsWithL (p s : PStr) : Bool := decide (s.take p.length = p)

/-- Modelled from the spec: the mailbox-or-url grammar variant (§6) — an
http(s) text without spaces or angle brackets is a URL; a text closed by a
closing angle bracket that contains an opening one is an angle-bracketed
mailbox; anything else is a bare addr-spec. -/
def mailbox_or_url_grammar (s : PStr) : Option Addr :=
  if (startsWithL (("http://").toList) s || startsWithL (("https://").toList) s)
      && !s.any (fun c => decide (c = ' ')) && !s.any (fun c => decide (c = '<'))
  then some (.url ⟨s⟩)
  else if decide (s.getLast? = some '>') && s.any (fun c => decide (c = '<'))
  then (mailboxG s).map Addr.email
  else (parseAddrSpecG s).map Addr.email

lemma char_eq_of_toNat {a b : Char} (h : a.toNat = b.toNat) : a = b :=
  Char.ext (UInt32.ext h)

lemma toNat_lowerChar (c : Char) :
    (lowerChar c).toNat
      = if 65 ≤ c.toNat ∧ c.toNat ≤ 90 then c.toNat + 32 else c.toNat := by
  unfold lowerChar
  split
  · rename_i h
    have hv : (c.toNat + 32).isValidChar := Or.inl (by omega)
    unfold Char.ofNat
    rw [dif_pos hv]
    rfl
  · rfl

lemma lowerChar_cases (c : Char) :
    lowerChar c = c ∨ (97 ≤ (lowerChar c).toNat ∧ (lowerChar c).toNat ≤ 122) := by
  by_cases h : 65 ≤ c.toNat ∧ c.toNat ≤ 90
  · right
    rw [toNat_lowerChar, if_pos h]
    omega
  · left
    unfold lowerChar
    rw [if_neg h]

lemma lowerChar_eq_self (c : Char) (h : ¬ (65 ≤ c.toNat ∧ c.toNat ≤ 90)) :
    lowerChar c = c := by
  unfold lowerChar
  rw [if_neg h]

lemma lowerChar_idem (c : Char) : lowerChar (lowerChar c) = lowerChar c := by
  rcases lowerChar_cases c with h | h
  · rw [h]; exact h
  · exact lowerChar_eq_self (lowerChar c) (by omega)

lemma pyLower_idem (s : PStr) : pyLower (pyLower s) = pyLower s := by
  unfold pyLower
  rw [List.map_map]
  exact List.map_congr_left (fun c _ => lowerChar_idem c)

lemma alnumC_of_toNat {c : Char} (h : 97 ≤ c.toNat ∧ c.toNat ≤ 122) :
    alnumC c = true := by
  simp only [alnumC, Bool.or_eq_true, Bool.and_eq_true, decide_eq_true_eq]
  omega

lemma atextDot_lowerChar {c : Char} (h : atextDot c = true) :
    atextDot (lowerChar c) = true := by
  rcases lowerChar_cases c with hc | hc
  · rw [hc]; exact h
  · simp [atextDot, atext, alnumC_of_toNat hc]

lemma innerOk_lowerChar {c : Char} (h : innerOk c = true) :
    innerOk (lowerChar c) = true := by
  rcases lowerChar_cases c with hc | hc
  · rw [hc]; exact h
  · simp [innerOk, alnumC_of_toNat hc]

lemma lowerChar_ascii {c : Char} (h : c.toNat < 128) :
    (lowerChar c).toNat < 128 := by
  rcases lowerChar_cases c with hc | hc
  · rw [hc]; exact h
  · omega

lemma is_pure_ascii_pyLower {s : PStr} (h : is_pure_ascii s = true) :
    is_pure_ascii (pyLower s) = true := by
  rw [is_pure_ascii, List.all_eq_true] at h ⊢
  intro x hx
  rw [pyLower, List.mem_map] at hx
  obtain ⟨c, hc, rfl⟩ := hx
  exact decide_eq_true (lowerChar_ascii (of_decide_eq_true (h c hc)))

lemma idnaEncode_ascii {d : PStr} (h : is_pure_ascii d = true) :
    idnaEncode d = d := by
  rw [idnaEncode, if_pos h]

lemma splitLast_eq_none {sep : Char} :
    ∀ {xs : PStr}, sep ∉ xs → splitLast sep xs = none := by
  intro xs
  induction xs with
  | nil => intro _; rfl
  | cons c cs ih =>
    intro h
    rw [List.mem_cons, not_or] at h
    have hcs : c ≠ sep := fun hc => h.1 hc.symm
    simp [splitLast, ih h.2, hcs]

lemma splitLast_append {sep : Char} (pre post : PStr) (h : sep ∉ post) :
    splitLast sep (pre ++ sep :: post) = some (pre, post) := by
  induction pre with
  | nil => simp [splitLast, splitLast_eq_none h]
  | cons c cs ih => simp [splitLast, ih]

lemma not_mem_of_all {d : PStr} {p : Char → Bool} (h : d.all p = true)
    {c : Char} (hc : p c = false) : c ∉ d := by
  intro hm
  rw [List.all_eq_true] at h
  have h2 := h c hm
  rw [hc] at h2
  exact absurd h2 (by decide)

lemma localOk_not_mem {l : PStr} (h : localOk l = true) :
    '@' ∉ l ∧ '<' ∉ l ∧ ':' ∉ l ∧ ' ' ∉ l := by
  rw [localOk, Bool.and_eq_true] at h
  exact ⟨not_mem_of_all h.2 (by decide), not_mem_of_all h.2 (by decide),
    not_mem_of_all h.2 (by decide), not_mem_of_all h.2 (by decide)⟩

lemma literalOk_elim {d : PStr} (h : literalOk d = true) :
    ∃ mid, d = '[' :: mid ++ [']'] ∧ mid.all innerOk = true := by
  cases d with
  | nil => simp [literalOk] at h
  | cons c rest =>
    simp only [literalOk, Bool.and_eq_true, decide_eq_true_eq] at h
    obtain ⟨⟨⟨hc, hne'⟩, hg⟩, hall⟩ := h
    subst hc
    have hne : rest ≠ [] := by
      intro hc2
      subst hc2
      simp at hne'
    have hg2 : rest.getLast hne = ']' := by
      have h3 := List.getLast?_eq_getLast rest hne
      rw [hg] at h3
      exact (Option.some_inj.mp h3).symm
    refine ⟨rest.dropLast, ?_, hall⟩
    have h4 : rest = rest.dropLast ++ [']'] := by
      conv_lhs => rw [← List.dropLast_append_getLast hne, hg2]
    rw [List.cons_append, ← h4]

lemma domOk_not_mem {d : PStr} (h : domOk d = true) :
    '@' ∉ d ∧ '<' ∉ d ∧ ':' ∉ d ∧ ' ' ∉ d := by
  rw [domOk, Bool.or_eq_true] at h
  rcases h with h | h
  · rw [Bool.and_eq_true] at h
    exact ⟨not_mem_of_all h.2 (by decide), not_mem_of_all h.2 (by decide),
      not_mem_of_all h.2 (by decide), not_mem_of_all h.2 (by decide)⟩
  · obtain ⟨mid, rfl, hmid⟩ := literalOk_elim h
    have hmem : ∀ c : Char, c ∈ ('[' :: mid ++ [']'] : PStr) →
        c = '[' ∨ c = ']' ∨ innerOk c = true := by
      intro c hm
      rcases List.mem_cons.mp hm with rfl | hm2
      · exact Or.inl rfl
      rcases List.mem_append.mp hm2 with hm3 | hm4
      · exact Or.inr (Or.inr (List.all_eq_true.mp hmid c hm3))
      · exact Or.inr (Or.inl (List.mem_singleton.mp hm4))
    refine ⟨?_, ?_, ?_, ?_⟩ <;>
      · intro hm
        rcases hmem _ hm with h1 | h1 | h1 <;> revert h1 <;> decide

lemma domOk_pyLower {d : PStr} (h : domOk d = true) :
    domOk (pyLower d) = true := by
  rw [domOk, Bool.or_eq_true] at h ⊢
  rcases h with h | h
  · left
    rw [Bool.and_eq_true] at h ⊢
    constructor
    · cases d with
      | nil => simp at h
      | cons c cs => simp [pyLower]
    · rw [List.all_eq_true] at h ⊢
      intro x hx
      rw [pyLower, List.mem_map] at hx
      obtain ⟨c, hc, rfl⟩ := hx
      exact atextDot_lowerChar (h.2 c hc)
  · right
    obtain ⟨mid, rfl, hmid⟩ := literalOk_elim h
    have hform : pyLower ('[' :: mid ++ [']']) = '[' :: (pyLower mid ++ [']']) := by
      simp [pyLower, List.map_append, (by decide : lowerChar '[' = '['),
        (by decide : lowerChar ']' = ']')]
    rw [hform]
    have hall2 : (pyLower mid).all innerOk = true := by
      rw [List.all_eq_true]
      intro x hx
      rw [pyLower, List.mem_map] at hx
      obtain ⟨c, hc, rfl⟩ := hx
      exact innerOk_lowerChar (List.all_eq_true.mp hmid c hc)
    simp [literalOk, List.getLast?_concat, List.dropLast_concat, hall2]


lemma grammar_email_inv {s : PStr} {e : EmailAddress}
    (h : mailbox_or_url_grammar s = some (.email e)) :
    localOk e.local_part = true ∧ domOk e.domain = true := by
  rw [mailbox_or_url_grammar] at h
  split at h
  · simp at h
  split at h
  · cases hm : mailboxG s with
    | none => rw [hm] at h; simp at h
    | some e2 =>
      rw [hm] at h
      simp only [Option.map_some', Option.some_inj] at h
      have he2 : e2 = e := by
        cases h
        rfl
      subst he2
      rw [mailboxG] at hm
      cases hsp : splitLast '<' s with
      | none => rw [hsp] at hm; simp at hm
      | some pr =>
        obtain ⟨dnRaw, rest⟩ := pr
        rw [hsp] at hm
        dsimp only at hm
        cases hsp2 : splitLast '@' rest.dropLast with
        | none => rw [hsp2] at hm; simp at hm
        | some pr2 =>
          obtain ⟨l, d⟩ := pr2
          rw [hsp2] at hm
          dsimp only at hm
          split at hm
          · rename_i hg
            rw [Bool.and_eq_true] at hg
            have he := Option.some_inj.mp hm
            rw [← he]
            exact hg
          · simp at hm
  · cases hm : parseAddrSpecG s with
    | none => rw [hm] at h; simp at h
    | some e2 =>
      rw [hm] at h
      simp only [Option.map_some', Option.some_inj] at h
      have he2 : e2 = e := by
        cases h
        rfl
      subst he2
      rw [parseAddrSpecG] at hm
      cases hsp : splitLast '@' s with
      | none => rw [hsp] at hm; simp at hm
      | some pr =>
        obtain ⟨l, d⟩ := pr
        rw [hsp] at hm
        dsimp only at hm
        split at hm
        · rename_i hg
          rw [Bool.and_eq_true] at hg
          have he := Option.some_inj.mp hm
          rw [← he]
          exact hg
        · simp at hm

lemma grammar_reparse_bare {l d : PStr} (hl : localOk l = true)
    (hd : domOk d = true) :
    mailbox_or_url_grammar (l ++ '@' :: d) = some (.email ⟨[], l, d⟩) := by
  obtain ⟨hla, hllt, hlc, hls⟩ := localOk_not_mem hl
  obtain ⟨hda, hdlt, hdc, hds⟩ := domOk_not_mem hd
  have hcolon : ':' ∉ l ++ '@' :: d := by
    intro hm
    rcases List.mem_append.mp hm with h1 | h1
    · exact hlc h1
    rcases List.mem_cons.mp h1 with h2 | h2
    · exact absurd h2 (by decide)
    · exact hdc h2
  have hlt : '<' ∉ l ++ '@' :: d := by
    intro hm
    rcases List.mem_append.mp hm with h1 | h1
    · exact hllt h1
    rcases List.mem_cons.mp h1 with h2 | h2
    · exact absurd h2 (by decide)
    · exact hdlt h2
  have hu1 : startsWithL (("http://").toList) (l ++ '@' :: d) = false := by
    rw [startsWithL, decide_eq_false_iff_not]
    intro he
    have hin : (':' : Char) ∈ (l ++ '@' :: d).take (("http://").toList).length := by
      rw [he]; decide
    exact hcolon (List.take_subset _ _ hin)
  have hu2 : startsWithL (("https://").toList) (l ++ '@' :: d) = false := by
    rw [startsWithL, decide_eq_false_iff_not]
    intro he
    have hin : (':' : Char) ∈ (l ++ '@' :: d).take (("https://").toList).length := by
      rw [he]; decide
    exact hcolon (List.take_subset _ _ hin)
  have hanylt : (l ++ '@' :: d).any (fun c => decide (c = '<')) = false := by
    rw [List.any_eq_false]
    intro x hx hb
    exact hlt (of_decide_eq_true hb ▸ hx)
  rw [mailbox_or_url_grammar]
  rw [if_neg (by
    intro hc
    have h1 := (Bool.and_eq_true _ _).mp ((Bool.and_eq_true _ _).mp hc).1
    rcases (Bool.or_eq_true _ _).mp h1.1 with h2 | h2
    · rw [hu1] at h2; exact absurd h2 (by decide)
    · rw [hu2] at h2; exact absurd h2 (by decide))]
  rw [if_neg (by
    intro hc
    have h1 := (Bool.and_eq_true _ _).mp hc
    rw [hanylt] at h1
    exact absurd h1.2 (by decide))]
  rw [parseAddrSpecG, splitLast_append l d hda]
  dsimp only
  rw [if_pos ((Bool.and_eq_true _ _).mpr ⟨hl, hd⟩)]
  rfl

lemma grammar_reparse_display (dn : PStr) {l d : PStr} (hl : localOk l = true)
    (hd : domOk d = true) :
    mailbox_or_url_grammar (dn ++ ' ' :: '<' :: l ++ '@' :: d ++ ['>'])
      = some (.email ⟨smart_unquote (trimTrailing (dn ++ [' '])), l, d⟩) := by
  obtain ⟨hla, hllt, hlc, hls⟩ := localOk_not_mem hl
  obtain ⟨hda, hdlt, hdc, hds⟩ := domOk_not_mem hd
  have hform : dn ++ ' ' :: '<' :: l ++ '@' :: d ++ ['>']
      = (dn ++ [' ']) ++ '<' :: ((l ++ '@' :: d) ++ ['>']) := by
    simp
  rw [hform]
  have hpost : '<' ∉ (l ++ '@' :: d) ++ ['>'] := by
    intro hm
    rcases List.mem_append.mp hm with h1 | h1
    · rcases List.mem_append.mp h1 with h2 | h2
      · exact hllt h2
      rcases List.mem_cons.mp h2 with h3 | h3
      · exact absurd h3 (by decide)
      · exact hdlt h3
    · exact absurd (List.mem_singleton.mp h1) (by decide)
  have hsplit := splitLast_append (dn ++ [' ']) ((l ++ '@' :: d) ++ ['>']) hpost
  have hany_sp : ((dn ++ [' ']) ++ '<' :: ((l ++ '@' :: d) ++ ['>'])).any
      (fun c => decide (c = ' ')) = true :=
    List.any_eq_true.mpr ⟨' ', by simp, by decide⟩
  have hany_lt : ((dn ++ [' ']) ++ '<' :: ((l ++ '@' :: d) ++ ['>'])).any
      (fun c => decide (c = '<')) = true :=
    List.any_eq_true.mpr ⟨'<', by simp, by decide⟩
  have hglast : ((dn ++ [' ']) ++ '<' :: ((l ++ '@' :: d) ++ ['>'])).getLast?
      = some '>' := by
    rw [List.getLast?_append_of_ne_nil _ (by simp)]
    have hsh : ('<' :: ((l ++ '@' :: d) ++ ['>']) : PStr)
        = ('<' :: (l ++ '@' :: d)) ++ ['>'] := by simp
    rw [hsh, List.getLast?_concat]
  rw [mailbox_or_url_grammar]
  rw [if_neg (by
    intro hc
    have h1 := (Bool.and_eq_true _ _).mp ((Bool.and_eq_true _ _).mp hc).1
    rw [hany_sp] at h1
    exact absurd h1.2 (by decide))]
  rw [if_pos ((Bool.and_eq_true _ _).mpr
    ⟨by rw [hglast]; decide, hany_lt⟩)]
  rw [mailboxG, hsplit]
  dsimp only
  rw [List.dropLast_concat, splitLast_append l d hda]
  dsimp only
  rw [if_pos ((Bool.and_eq_true _ _).mpr ⟨hl, hd⟩)]
  rfl

/-- C6 (amended): re-parsing full_spec() of a successfully parsed
EmailAddress yields an address equal to the original under §3 equality,
provided the stored domain is pure ASCII or the local part requires
non-ASCII (so full_spec returns the Unicode form), and the full_spec text
is itself within the single-address length ceiling.  When the local part
is ASCII but the domain is not, to_ace rewrites the domain into its
ASCII-compatible IDNA form and the re-parsed address is NOT equal. -/
theorem full_spec_reparse_equal (s : PStr) (e : EmailAddress)
    (hp : parse mailbox_or_url_grammar s = some (.email e))
    (hcase : is_pure_ascii e.domain = true ∨ e.requires_non_ascii = true)
    (fs : PStr) (hfs : e.full_spec = some fs)
    (hlen : fs.length ≤ MAX_ADDRESS_LENGTH) :
    ∃ e2, parse mailbox_or_url_grammar fs = some (.email e2)
      ∧ emailEq e (.email e2) = true := by
  have hg : mailbox_or_url_grammar s = some (.email e) := by
    rw [parse] at hp
    split at hp
    · exact absurd hp (by simp)
    split at hp
    · exact absurd hp (by simp)
    · exact hp
  obtain ⟨hl, hd⟩ := grammar_email_inv hg
  by_cases hreq : e.requires_non_ascii = true
  · rw [EmailAddress.full_spec, if_pos hreq] at hfs
    have hfs2 := Option.some_inj.mp hfs
    rw [EmailAddress.to_unicode] at hfs2
    by_cases hdn : e.display_name.isEmpty
    · rw [if_pos hdn] at hfs2
      subst hfs2
      refine ⟨⟨[], e.local_part, e.domain⟩, ?_, ?_⟩
      · rw [parse, if_neg (by simp), if_neg (by omega)]
        exact grammar_reparse_bare hl hd
      · simp [emailEq, Addr.address, EmailAddress.address]
    · rw [if_neg hdn] at hfs2
      subst hfs2
      refine ⟨⟨smart_unquote (trimTrailing (e.display_name ++ [' '])),
        e.local_part, e.domain⟩, ?_, ?_⟩
      · rw [parse, if_neg (by simp), if_neg (by omega)]
        exact grammar_reparse_display e.display_name hl hd
      · simp [emailEq, Addr.address, EmailAddress.address]
  · have hdom : is_pure_ascii e.domain = true := by
      rcases hcase with h | h
      · exact h
      · exact absurd h hreq
    have hlascii : is_pure_ascii e.local_part = true := by
      rw [EmailAddress.requires_non_ascii] at hreq
      cases hx : is_pure_ascii e.local_part
      · rw [hx] at hreq
        exact absurd (by decide) hreq
      · rfl
    rw [EmailAddress.full_spec, if_neg hreq, EmailAddress.to_ace] at hfs
    rw [if_neg (by rw [hlascii]; decide)] at hfs
    dsimp only at hfs
    have hace : idnaEncode (pyLower e.domain) = pyLower e.domain :=
      idnaEncode_ascii (is_pure_ascii_pyLower hdom)
    rw [hace] at hfs
    have hdlow : domOk (pyLower e.domain) = true := domOk_pyLower hd
    by_cases hdn : e.display_name.isEmpty
    · rw [if_pos hdn] at hfs
      have hfs2 := Option.some_inj.mp hfs
      subst hfs2
      refine ⟨⟨[], e.local_part, pyLower e.domain⟩, ?_, ?_⟩
      · rw [parse, if_neg (by simp), if_neg (by omega)]
        exact grammar_reparse_bare hl hdlow
      · simp [emailEq, Addr.address, EmailAddress.address, pyLower_idem]
    · rw [if_neg hdn] at hfs
      have hfs2 := Option.some_inj.mp hfs
      subst hfs2
      refine ⟨⟨smart_unquote (trimTrailing
          (smart_quote (encode_string e.display_name) ++ [' '])),
        e.local_part, pyLower e.domain⟩, ?_, ?_⟩
      · rw [parse, if_neg (by simp), if_neg (by omega)]
        exact grammar_reparse_display (smart_quote (encode_string e.display_name))
          hl hdlow
      · simp [emailEq, Addr.address, EmailAddress.address, pyLower_idem]

/-- Counterexample to C6 as stated: a@münchen.de parses, but its full_spec
is the IDNA form a@xn--mnchen.de, which re-parses to an address that is NOT
equal to the original under the case-insensitive canonical equality. -/
theorem full_spec_reparse_idna_counterexample :
    parse mailbox_or_url_grammar (("a@münchen.de").toList)
      = some (.email ⟨[], ("a").toList, ("münchen.de").toList⟩)
    ∧ EmailAddress.full_spec ⟨[], ("a").toList, ("münchen.de").toList⟩
      = some (("a@xn--mnchen.de").toList)
    ∧ parse mailbox_or_url_grammar (("a@xn--mnchen.de").toList)
      = some (.email ⟨[], ("a").toList, ("xn--mnchen.de").toList⟩)
    ∧ emailEq ⟨[], ("a").toList, ("münchen.de").toList⟩
        (.email ⟨[], ("a").toList, ("xn--mnchen.de").toList⟩) = false := by
  refine ⟨?_, ?_, ?_, ?_⟩ <;> decide

/-- Witness for C6's amended theorem at bob@host.com, whose domain is pure
ASCII. -/
theorem full_spec_reparse_equal_witness :
    ∃ e2, parse mailbox_or_url_grammar (("bob@host.com").toList)
        = some (.email e2)
      ∧ emailEq ⟨[], ("bob").toList, ("host.com").toList⟩ (.email e2) = true :=
  full_spec_reparse_equal (("bob@host.com").toList)
    ⟨[], ("bob").toList, ("host.com").toList⟩ (by decide)
    (Or.inl (by decide)) (("bob@host.com").toList) (by decide) (by decide)
